import Mathlib

/-
  Verification development for the sketchpad application (src/src/main.ts,
  the full-featured document: strokes + stickers, preview, undo/redo, export).

  The TypeScript module keeps its drawing state in module-level variables
  (`strokes`, `redoStack`, `currentStroke`, `cursor`, `previewCommand`, the
  tool settings) and mutates them from DOM event handlers.  We embed this as
  a pure state record plus one total function per handler, and a `step`
  dispatcher over an `Event` type.

  JavaScript objects are mutated through references: `currentStroke` aliases
  the object most recently pushed onto `strokes`, and `drag` mutates it in
  place.  To keep that aliasing faithful we store every Drawable ever
  created in an arena list `heap` (an object is never removed from the
  arena) and let `strokes`, `redoStack` and `currentStroke` hold arena
  indices.  The observable "committed" and "undone" sequences of Drawables
  are obtained by reading the arena.
-/

namespace Sketchpad

/-- Surface-local coordinates, `type Point` of main.ts. -/
structure Point where
  x : ℚ
  y : ℚ
deriving DecidableEq, Repr

/-- The two DrawableCommand implementations of main.ts:
`MarkerLine` (points, thickness, color) and `Sticker` (x, y, emoji, size). -/
inductive Drawable
  | markerLine (points : List Point) (thickness : ℚ) (color : String)
  | sticker (x y : ℚ) (emoji : String) (size : ℚ)
deriving DecidableEq, Repr

/-- The `drag(x, y)` method: `MarkerLine.drag` pushes the point onto
`points`; `Sticker.drag` repositions (no path history). -/
def Drawable.drag : Drawable → ℚ → ℚ → Drawable
  | .markerLine pts t c, x, y => .markerLine (pts ++ [⟨x, y⟩]) t c
  | .sticker _ _ e s, x, y => .sticker x y e s

/-- The tool kind, `currentTool` of main.ts: brush or stamp. -/
inductive Tool
  | brush
  | stamp
deriving DecidableEq, Repr

/-- The PreviewCommand values built by the `tool-moved` handler:
`CirclePreview(x, y, thickness)` carrying a color, or the anonymous
sticker-ghost preview (x, y, emoji, size). -/
inductive PreviewCmd
  | circle (x y thickness : ℚ) (color : String)
  | stickerGhost (x y : ℚ) (emoji : String) (size : ℚ)
deriving DecidableEq, Repr

/-- Abstract canvas drawing operations, recording what a `display`/`draw`
call paints: a stroked polyline with a line width and stroke color, a piece
of text (glyph) at a position with a font size and global alpha, or a
stroked circle (the brush preview ring, drawn with lineWidth 1). -/
inductive RenderOp
  | path (points : List Point) (width : ℚ) (color : String)
  | glyph (g : String) (x y size alpha : ℚ)
  | ring (x y r : ℚ) (color : String)
deriving DecidableEq, Repr

/-- Rendering of a Drawable: `MarkerLine.display` paints nothing when
`points` is empty and otherwise one stroked polyline at the captured
thickness/color; `Sticker.display` fills the emoji text at the captured
position/size (alpha 1). -/
def Drawable.displayOps : Drawable → List RenderOp
  | .markerLine pts t c => if pts.isEmpty then [] else [.path pts t c]
  | .sticker x y e s => [.glyph e x y s 1]

/-- Rendering of a preview: `CirclePreview.draw` strokes a circle of radius
`Math.max(1, thickness / 2)` in `this.color || "rgba(0,0,0,0.6)"`; the
sticker ghost fills the emoji text at font size `size` with
`globalAlpha = 0.9`. -/
def PreviewCmd.drawOps : PreviewCmd → List RenderOp
  | .circle x y t c =>
      [.ring x y (max 1 (t / 2)) (if c = "" then "rgba(0,0,0,0.6)" else c)]
  | .stickerGhost x y e s => [.glyph e x y s (9 / 10)]

/-- The module-level mutable state of main.ts.  `heap` is the arena of all
Drawable objects ever constructed; `strokes`, `redoStack`, `currentStroke`
hold arena indices (references). -/
structure DrawState where
  heap : List Drawable
  strokes : List Nat
  redoStack : List Nat
  currentStroke : Option Nat
  cursorActive : Bool
  cursorX : ℚ
  cursorY : ℚ
  previewCommand : Option PreviewCmd
  currentToolThickness : ℚ
  currentTool : Tool
  currentStickerEmoji : String
  currentToolColor : String
deriving DecidableEq, Repr

/-- Placeholder used to totalise arena reads; never observed on well-formed
states, where every stored index is in range. -/
def defaultDrawable : Drawable := .markerLine [] 2 "#000"

/-- Dereference an arena index. -/
def heapGet (st : DrawState) (i : Nat) : Drawable :=
  st.heap.getD i defaultDrawable

/-- The `committed` sequence of the spec: the Drawables of the `strokes`
array, oldest first. -/
def committed (st : DrawState) : List Drawable :=
  st.strokes.map (heapGet st)

/-- The `undone` stack of the spec: the Drawables of the `redoStack` array,
most recently undone last (the JS stack top is the array end). -/
def undone (st : DrawState) : List Drawable :=
  st.redoStack.map (heapGet st)

/-- In-place mutation of the arena object at index `i` (no-op when the
index is out of range, which never happens on well-formed states). -/
def listUpdate (l : List Drawable) (i : Nat) (f : Drawable → Drawable) :
    List Drawable :=
  match l.get? i with
  | some a => l.set i (f a)
  | none => l

/-- The `tool-moved` listener: when `!cursor.active`, rebuild
`previewCommand` from the event detail and the current tool settings
(brush: `CirclePreview(detail.x, detail.y, detail.thickness ??
currentToolThickness)` with color `detail.color ?? currentToolColor`;
stamp: ghost with `currentStickerEmoji` sized `(detail.thickness ??
currentToolThickness) * 3`).  When drawing, it does nothing. -/
def toolMoved (st : DrawState) (x y : ℚ) (th : Option ℚ)
    (col : Option String) : DrawState :=
  if st.cursorActive then st
  else
    let t := th.getD st.currentToolThickness
    let p : PreviewCmd :=
      if st.currentTool = Tool.brush then
        .circle x y t (col.getD st.currentToolColor)
      else
        .stickerGhost x y st.currentStickerEmoji (t * 3)
    { st with previewCommand := some p }

/-- The Drawable built by the mousedown handler from the current tool
settings at the pointer position: `new MarkerLine(x, y,
currentToolThickness, currentToolColor)` or `new Sticker(x, y,
currentStickerEmoji, currentToolThickness * 3)`. -/
def newDrawable (st : DrawState) (x y : ℚ) : Drawable :=
  if st.currentTool = Tool.brush then
    .markerLine [⟨x, y⟩] st.currentToolThickness st.currentToolColor
  else
    .sticker x y st.currentStickerEmoji (st.currentToolThickness * 3)

/-- The `mousedown` listener: activate the cursor at the pointer position,
hide the preview, construct the new Drawable, push it onto `strokes` (also
referenced by `currentStroke`), and clear `redoStack`. -/
def handleMousedown (st : DrawState) (x y : ℚ) : DrawState :=
  { st with
    cursorActive := true
    cursorX := x
    cursorY := y
    previewCommand := none
    heap := st.heap ++ [newDrawable st x y]
    strokes := st.strokes ++ [st.heap.length]
    currentStroke := some st.heap.length
    redoStack := [] }

/-- The `mousemove` listener: always dispatch `tool-moved` with
`{x, y, thickness: currentToolThickness}` (no color field); then, if
`cursor.active && currentStroke`, drag the current stroke object and update
the cursor position. -/
def handleMousemove (st : DrawState) (x y : ℚ) : DrawState :=
  let st1 := toolMoved st x y (some st.currentToolThickness) none
  match st1.currentStroke with
  | some i =>
      if st1.cursorActive then
        { st1 with
          heap := listUpdate st1.heap i (fun d => d.drag x y)
          cursorX := x
          cursorY := y }
      else st1
  | none => st1

/-- The `mouseup` listener `endStroke`: deactivate the cursor and drop
the `currentStroke` reference. -/
def endStroke (st : DrawState) : DrawState :=
  { st with cursorActive := false, currentStroke := none }

/-- The `mouseleave` listener: `endStroke()` then clear the preview. -/
def handleMouseleave (st : DrawState) : DrawState :=
  { endStroke st with previewCommand := none }

/-- The clear button: `strokes.length = 0; redoStack.length = 0`. -/
def handleClear (st : DrawState) : DrawState :=
  { st with strokes := [], redoStack := [] }

/-- The undo button: early return when `strokes` is empty, otherwise pop
the last stroke reference and push it onto `redoStack`. -/
def handleUndo (st : DrawState) : DrawState :=
  match st.strokes.getLast? with
  | none => st
  | some i =>
      { st with
        strokes := st.strokes.dropLast
        redoStack := st.redoStack ++ [i] }

/-- The redo button: early return when `redoStack` is empty, otherwise pop
its top and push it back onto `strokes`. -/
def handleRedo (st : DrawState) : DrawState :=
  match st.redoStack.getLast? with
  | none => st
  | some i =>
      { st with
        redoStack := st.redoStack.dropLast
        strokes := st.strokes ++ [i] }

/-- The `selectTool(button, thickness)` function: set the thickness, switch
to the brush tool, and fire `tool-moved` at the remembered cursor position
with the current thickness and color. -/
def handleSelectTool (st : DrawState) (t : ℚ) : DrawState :=
  let st1 := { st with currentToolThickness := t, currentTool := Tool.brush }
  toolMoved st1 st1.cursorX st1.cursorY (some st1.currentToolThickness)
    (some st1.currentToolColor)

/-- The color picker `input` listener: set `currentToolColor` and fire
`tool-moved` at the remembered cursor position. -/
def handleColorInput (st : DrawState) (c : String) : DrawState :=
  let st1 := { st with currentToolColor := c }
  toolMoved st1 st1.cursorX st1.cursorY (some st1.currentToolThickness)
    (some st1.currentToolColor)

/-- The thickness slider `input` listener: set `currentToolThickness` and
fire `tool-moved` at the remembered cursor position. -/
def handleThicknessInput (st : DrawState) (t : ℚ) : DrawState :=
  let st1 := { st with currentToolThickness := t }
  toolMoved st1 st1.cursorX st1.cursorY (some st1.currentToolThickness)
    (some st1.currentToolColor)

/-- A sticker button click: switch to the stamp tool with that emoji and
fire `tool-moved` at the remembered cursor position. -/
def handleStickerClick (st : DrawState) (g : String) : DrawState :=
  let st1 := { st with currentTool := Tool.stamp, currentStickerEmoji := g }
  toolMoved st1 st1.cursorX st1.cursorY (some st1.currentToolThickness)
    (some st1.currentToolColor)

/-- The input events handled by the module (the export button mutates no
drawing state: it only renders to an offscreen canvas and downloads). -/
inductive Event
  | mousedown (x y : ℚ)
  | mousemove (x y : ℚ)
  | mouseup
  | mouseleave
  | undoClick
  | redoClick
  | clearClick
  | exportClick
  | selectBrush (thickness : ℚ)
  | stickerClick (glyph : String)
  | colorInput (c : String)
  | thicknessInput (t : ℚ)
deriving DecidableEq, Repr

/-- Dispatch one event to its handler. -/
def step (st : DrawState) : Event → DrawState
  | .mousedown x y => handleMousedown st x y
  | .mousemove x y => handleMousemove st x y
  | .mouseup => endStroke st
  | .mouseleave => handleMouseleave st
  | .undoClick => handleUndo st
  | .redoClick => handleRedo st
  | .clearClick => handleClear st
  | .exportClick => st
  | .selectBrush t => handleSelectTool st t
  | .stickerClick g => handleStickerClick st g
  | .colorInput c => handleColorInput st c
  | .thicknessInput t => handleThicknessInput st t

/-- Process a sequence of events in arrival order. -/
def run (st : DrawState) (es : List Event) : DrawState :=
  es.foldl step st

/-- The module-level variables right after declaration, before
`selectTool(thinTool, 2)` runs. -/
def rawInit : DrawState :=
  { heap := []
    strokes := []
    redoStack := []
    currentStroke := none
    cursorActive := false
    cursorX := 0
    cursorY := 0
    previewCommand := none
    currentToolThickness := 2
    currentTool := Tool.brush
    currentStickerEmoji := "⭐"
    currentToolColor := "#000000" }

/-- The state after module initialisation, which ends with
`selectTool(thinTool, 2)`. -/
def initState : DrawState := handleSelectTool rawInit 2

/-- States reachable from module initialisation by some event sequence. -/
def Reachable (st : DrawState) : Prop :=
  ∃ es : List Event, st = run initState es

/-- The `drawing-changed` listener's paint list: every committed stroke's
`display`, then — only `if (previewCommand && !cursor.active)` — the
preview's `draw`. -/
def renderOps (st : DrawState) : List RenderOp :=
  (committed st).flatMap Drawable.displayOps ++
    (match st.previewCommand, st.cursorActive with
     | some p, false => p.drawOps
     | _, _ => [])

/-- The native surface width, `canvas.width`. -/
def canvasWidth : ℚ := 256

/-- The native surface height, `canvas.height`. -/
def canvasHeight : ℚ := 256

/-- The effect of `offCtx.scale(sx, sy)` on a drawing operation (the export
handler always uses `sx = sy`, a uniform scale). -/
def RenderOp.scaleXY (sx sy : ℚ) : RenderOp → RenderOp
  | .path pts w c => .path (pts.map fun p => ⟨sx * p.x, sy * p.y⟩) (sx * w) c
  | .glyph g x y s a => .glyph g (sx * x) (sy * y) (sy * s) a
  | .ring x y r c => .ring (sx * x) (sy * y) (sx * r) c

/-- The export button handler: `size = 1024`, scale factors
`size / canvas.width` and `size / canvas.height`, then `cmd.display` for
each element of `strokes` under that scale (the preview is never drawn). -/
def exportOps (st : DrawState) : List RenderOp :=
  let size : ℚ := 1024
  let sfx := size / canvasWidth
  let sfy := size / canvasHeight
  ((committed st).flatMap Drawable.displayOps).map (RenderOp.scaleXY sfx sfy)

/-- Well-formedness of the arena encoding: every reference stored in
`strokes` or `redoStack` points into the arena.  In JavaScript this is
automatic (the arrays hold live object references). -/
def WfHeap (st : DrawState) : Prop :=
  (∀ i ∈ st.strokes, i < st.heap.length) ∧ ∀ i ∈ st.redoStack, i < st.heap.length

instance (st : DrawState) : Decidable (WfHeap st) :=
  inferInstanceAs (Decidable ((∀ i ∈ st.strokes, i < st.heap.length) ∧
    ∀ i ∈ st.redoStack, i < st.heap.length))

/-- The events that only change tool settings: brush selection, sticker
selection, the color picker and the thickness slider. -/
def SettingsEvent : Event → Prop
  | .selectBrush _ => True
  | .stickerClick _ => True
  | .colorInput _ => True
  | .thicknessInput _ => True
  | _ => False

instance (e : Event) : Decidable (SettingsEvent e) :=
  match e with
  | .selectBrush _ => .isTrue trivial
  | .stickerClick _ => .isTrue trivial
  | .colorInput _ => .isTrue trivial
  | .thicknessInput _ => .isTrue trivial
  | .mousedown _ _ => .isFalse (fun h => h)
  | .mousemove _ _ => .isFalse (fun h => h)
  | .mouseup => .isFalse (fun h => h)
  | .mouseleave => .isFalse (fun h => h)
  | .undoClick => .isFalse (fun h => h)
  | .redoClick => .isFalse (fun h => h)
  | .clearClick => .isFalse (fun h => h)
  | .exportClick => .isFalse (fun h => h)

/-- While the pointer is down, no preview object exists. -/
def PreviewInv (st : DrawState) : Prop :=
  st.cursorActive = true → st.previewCommand = none

instance (st : DrawState) : Decidable (PreviewInv st) :=
  inferInstanceAs (Decidable (st.cursorActive = true → st.previewCommand = none))

/-- The cursor-active flag agrees with the presence of a `currentStroke`
reference. -/
def ActiveInv (st : DrawState) : Prop :=
  st.cursorActive = st.currentStroke.isSome

instance (st : DrawState) : Decidable (ActiveInv st) :=
  inferInstanceAs (Decidable (st.cursorActive = st.currentStroke.isSome))

theorem toolMoved_strokes (st : DrawState) (x y : ℚ) (th : Option ℚ)
    (col : Option String) : (toolMoved st x y th col).strokes = st.strokes := by
  unfold toolMoved; split <;> rfl

theorem toolMoved_redoStack (st : DrawState) (x y : ℚ) (th : Option ℚ)
    (col : Option String) :
    (toolMoved st x y th col).redoStack = st.redoStack := by
  unfold toolMoved; split <;> rfl

theorem toolMoved_heap (st : DrawState) (x y : ℚ) (th : Option ℚ)
    (col : Option String) : (toolMoved st x y th col).heap = st.heap := by
  unfold toolMoved; split <;> rfl

theorem toolMoved_cursorActive (st : DrawState) (x y : ℚ) (th : Option ℚ)
    (col : Option String) :
    (toolMoved st x y th col).cursorActive = st.cursorActive := by
  unfold toolMoved; split <;> rfl

theorem toolMoved_currentStroke (st : DrawState) (x y : ℚ) (th : Option ℚ)
    (col : Option String) :
    (toolMoved st x y th col).currentStroke = st.currentStroke := by
  unfold toolMoved; split <;> rfl

theorem toolMoved_of_active (st : DrawState) (x y : ℚ) (th : Option ℚ)
    (col : Option String) (h : st.cursorActive = true) :
    toolMoved st x y th col = st := by
  unfold toolMoved; simp [h]

/-- Two states sharing `strokes` and `heap` have the same committed list. -/
theorem committed_congr {st st' : DrawState} (h1 : st'.strokes = st.strokes)
    (h2 : st'.heap = st.heap) : committed st' = committed st := by
  simp [committed, heapGet, h1, h2]

/-- Two states sharing `redoStack` and `heap` have the same undone list. -/
theorem undone_congr {st st' : DrawState} (h1 : st'.redoStack = st.redoStack)
    (h2 : st'.heap = st.heap) : undone st' = undone st := by
  simp [undone, heapGet, h1, h2]

/-- C5: `clear()` empties both the committed and undone stacks regardless of
their prior contents, and an `undo()` performed immediately after `clear()`
is a no-op (both stacks remain empty). -/
theorem clear_empties_both_then_undo_noop (st : DrawState) :
    committed (step st .clearClick) = [] ∧
    undone (step st .clearClick) = [] ∧
    step (step st .clearClick) .undoClick = step st .clearClick := by
  exact ⟨rfl, rfl, rfl⟩

/-- C1: on any history state with a non-empty committed sequence, `undo()`
followed immediately by `redo()` restores the entire state — in particular
the committed sequence (same Drawables, same contents, same order) and the
undone stack return to their pre-undo values. -/
theorem undo_then_redo_restores (st : DrawState) (h : committed st ≠ []) :
    step (step st .undoClick) .redoClick = st ∧
    committed (step (step st .undoClick) .redoClick) = committed st ∧
    undone (step (step st .undoClick) .redoClick) = undone st := by
  have hs : st.strokes ≠ [] := by
    intro hnil
    exact h (by simp [committed, hnil])
  obtain ⟨hp, strokes, rs, cs, ca, cx, cy, pc, tt, tl, se, tc⟩ := st
  obtain ⟨l, a, rfl⟩ := strokes.eq_nil_or_concat.resolve_left hs
  simp only [List.concat_eq_append] at h hs ⊢
  have key : step (step (DrawState.mk hp (l ++ [a]) rs cs ca cx cy pc tt tl se tc)
      .undoClick) .redoClick = DrawState.mk hp (l ++ [a]) rs cs ca cx cy pc tt tl se tc := by
    simp [step, handleUndo, handleRedo, List.getLast?_concat, List.dropLast_concat]
  exact ⟨key, by rw [key], by rw [key]⟩

/-- Witness for C1 at a concrete state with one committed stroke. -/
theorem undo_then_redo_restores_witness :
    committed (run initState [Event.mousedown 1 1, Event.mouseup]) ≠ [] ∧
    step (step (run initState [Event.mousedown 1 1, Event.mouseup]) .undoClick)
        .redoClick = run initState [Event.mousedown 1 1, Event.mouseup] := by
  refine ⟨by decide, ?_⟩
  exact (undo_then_redo_restores (run initState [Event.mousedown 1 1, Event.mouseup])
    (by decide)).1

/-- Undo moves the last committed Drawable onto the undone stack. -/
theorem handleUndo_spec (st : DrawState) :
    committed (handleUndo st) = (committed st).dropLast ∧
    undone (handleUndo st) = undone st ++ (committed st).getLast?.toList := by
  obtain ⟨hp, strokes, rs, cs, ca, cx, cy, pc, tt, tl, se, tc⟩ := st
  rcases strokes.eq_nil_or_concat with rfl | ⟨l, a, rfl⟩
  · exact ⟨rfl, by simp [handleUndo, committed, undone]⟩
  · constructor
    · simp [handleUndo, List.concat_eq_append, List.getLast?_concat,
        List.dropLast_concat, committed, heapGet]
    · simp [handleUndo, List.concat_eq_append, List.getLast?_concat,
        List.dropLast_concat, committed, undone, heapGet]

/-- Redo moves the top of the undone stack to the end of committed. -/
theorem handleRedo_spec (st : DrawState) :
    undone (handleRedo st) = (undone st).dropLast ∧
    committed (handleRedo st) = committed st ++ (undone st).getLast?.toList := by
  obtain ⟨hp, strokes, rs, cs, ca, cx, cy, pc, tt, tl, se, tc⟩ := st
  rcases rs.eq_nil_or_concat with rfl | ⟨l, a, rfl⟩
  · exact ⟨rfl, by simp [handleRedo, committed, undone]⟩
  · constructor
    · simp [handleRedo, List.concat_eq_append, List.getLast?_concat,
        List.dropLast_concat, undone, heapGet]
    · simp [handleRedo, List.concat_eq_append, List.getLast?_concat,
        List.dropLast_concat, committed, undone, heapGet]

/-- C4: `undo()` on an empty committed sequence and `redo()` on an empty
undone stack are no-ops leaving the whole state unchanged; when non-empty,
undo pops the last committed Drawable onto undone, and redo pops the top of
undone and appends it to the end of committed. -/
theorem undo_redo_empty_noop_otherwise_pop (st : DrawState) :
    (committed st = [] → step st .undoClick = st) ∧
    (undone st = [] → step st .redoClick = st) ∧
    committed (step st .undoClick) = (committed st).dropLast ∧
    undone (step st .undoClick) = undone st ++ (committed st).getLast?.toList ∧
    undone (step st .redoClick) = (undone st).dropLast ∧
    committed (step st .redoClick) = committed st ++ (undone st).getLast?.toList := by
  refine ⟨?_, ?_, (handleUndo_spec st).1, (handleUndo_spec st).2,
    (handleRedo_spec st).1, (handleRedo_spec st).2⟩
  · intro h
    have hs : st.strokes = [] := by simpa [committed] using h
    simp [step, handleUndo, hs]
  · intro h
    have hs : st.redoStack = [] := by simpa [undone] using h
    simp [step, handleRedo, hs]

/-- Witness for C4 at the initial state, where both stacks are empty. -/
theorem undo_redo_empty_noop_otherwise_pop_witness :
    committed initState = [] ∧ step initState .undoClick = initState ∧
    undone initState = [] ∧ step initState .redoClick = initState := by
  refine ⟨by decide, ?_, by decide, ?_⟩
  · exact (undo_redo_empty_noop_otherwise_pop initState).1 (by decide)
  · exact (undo_redo_empty_noop_otherwise_pop initState).2.1 (by decide)

/-- Growing the arena does not change how in-range references are read. -/
theorem map_getD_append {idxs : List Nat} {l : List Drawable}
    (h : ∀ i ∈ idxs, i < l.length) (d2 : Drawable) (d0 : Drawable) :
    idxs.map (fun i => (l ++ [d2]).getD i d0) = idxs.map (fun i => l.getD i d0) :=
  List.map_congr_left fun i hi => List.getD_append l [d2] d0 i (h i hi)

/-- C2: committing a new Drawable (pointer-down starting a new stroke or
stamp) appends the Drawable built from the current tool settings to the end
of `committed` and unconditionally empties the undone stack, whatever it
held before. -/
theorem mousedown_appends_committed_clears_undone (st : DrawState)
    (hw : WfHeap st) (x y : ℚ) :
    committed (step st (.mousedown x y)) = committed st ++ [newDrawable st x y] ∧
    undone (step st (.mousedown x y)) = [] := by
  obtain ⟨hw1, _⟩ := hw
  refine ⟨?_, rfl⟩
  show (st.strokes ++ [st.heap.length]).map
      (fun i => (st.heap ++ [newDrawable st x y]).getD i defaultDrawable) = _
  rw [List.map_append, map_getD_append hw1]
  simp [committed, heapGet, List.getD_append_right]

/-- Witness for C2 at a state whose undone stack is non-empty. -/
theorem mousedown_appends_committed_clears_undone_witness :
    WfHeap (run initState [Event.mousedown 1 1, Event.mouseup, Event.undoClick]) ∧
    (committed (step (run initState [Event.mousedown 1 1, Event.mouseup,
          Event.undoClick]) (.mousedown 2 3)) =
        committed (run initState [Event.mousedown 1 1, Event.mouseup,
          Event.undoClick]) ++
          [newDrawable (run initState [Event.mousedown 1 1, Event.mouseup,
            Event.undoClick]) 2 3] ∧
      undone (step (run initState [Event.mousedown 1 1, Event.mouseup,
          Event.undoClick]) (.mousedown 2 3)) = []) :=
  ⟨by decide, mousedown_appends_committed_clears_undone _ (by decide) 2 3⟩

/-- A settings event leaves the stroke references, the undone references and
the arena untouched: it only rewrites tool settings and the preview. -/
theorem settings_frame (st : DrawState) (e : Event) (he : SettingsEvent e) :
    (step st e).strokes = st.strokes ∧ (step st e).redoStack = st.redoStack ∧
      (step st e).heap = st.heap := by
  cases e <;> simp only [SettingsEvent] at he <;>
    simp [step, handleSelectTool, handleStickerClick, handleColorInput,
      handleThicknessInput, toolMoved_strokes, toolMoved_redoStack,
      toolMoved_heap]

/-- C3: a Drawable's thickness, color, glyph and size are captured at
creation and never modified afterwards by setting changes: any sequence of
setting events (brush/sticker selection, color picker, thickness slider)
leaves every committed and undone Drawable — hence all captured fields —
unchanged.  In the concrete scenario, stroke A committed at thickness 2
keeps thickness 2 after the slider moves to 8, and stroke C committed
afterwards captures thickness 8. -/
theorem settings_never_alter_committed_drawables :
    (∀ (st : DrawState) (es : List Event), (∀ e ∈ es, SettingsEvent e) →
        committed (run st es) = committed st ∧ undone (run st es) = undone st) ∧
    committed (run initState
        [Event.thicknessInput 2, Event.mousedown 1 1, Event.mouseup,
         Event.thicknessInput 8, Event.mousedown 3 3, Event.mouseup]) =
      [Drawable.markerLine [⟨1, 1⟩] 2 "#000000",
       Drawable.markerLine [⟨3, 3⟩] 8 "#000000"] := by
  constructor
  · intro st es
    induction es generalizing st with
    | nil => exact fun _ => ⟨rfl, rfl⟩
    | cons e es ih =>
      intro hall
      obtain ⟨f1, f2, f3⟩ := settings_frame st e (hall e (List.mem_cons_self e es))
      have hrun : run st (e :: es) = run (step st e) es := rfl
      obtain ⟨ih1, ih2⟩ :=
        ih (step st e) (fun e' he' => hall e' (List.mem_cons_of_mem e he'))
      rw [hrun, ih1, ih2]
      exact ⟨committed_congr f1 f3, undone_congr f2 f3⟩
  · decide

/-- Witness for C3: a committed stroke survives a slider move, a color
change and a tool switch unchanged. -/
theorem settings_never_alter_committed_drawables_witness :
    (∀ e ∈ [Event.thicknessInput 8, Event.colorInput "#ff0000",
        Event.stickerClick "★"], SettingsEvent e) ∧
    committed (run (run initState [Event.mousedown 1 1, Event.mouseup])
        [Event.thicknessInput 8, Event.colorInput "#ff0000",
         Event.stickerClick "★"]) =
      committed (run initState [Event.mousedown 1 1, Event.mouseup]) ∧
    undone (run (run initState [Event.mousedown 1 1, Event.mouseup])
        [Event.thicknessInput 8, Event.colorInput "#ff0000",
         Event.stickerClick "★"]) =
      undone (run initState [Event.mousedown 1 1, Event.mouseup]) :=
  ⟨by decide, settings_never_alter_committed_drawables.1 _ _ (by decide)⟩

/-- C6: exporting at target size 1024 from the 256×256 surface paints
exactly the display operations of the committed Drawables, each scaled by
the uniform factor 4 = 1024 / 256 in x and in y; the preview never
contributes — the export is unchanged under any replacement of the preview
state. -/
theorem export_renders_committed_scaled_four (st : DrawState) :
    exportOps st =
      ((committed st).flatMap Drawable.displayOps).map (RenderOp.scaleXY 4 4) ∧
    ∀ p : Option PreviewCmd,
      exportOps { st with previewCommand := p } = exportOps st := by
  constructor
  · have h4 : (1024 : ℚ) / canvasWidth = 4 := by norm_num [canvasWidth]
    have h4' : (1024 : ℚ) / canvasHeight = 4 := by norm_num [canvasHeight]
    show ((committed st).flatMap Drawable.displayOps).map
      (RenderOp.scaleXY ((1024 : ℚ) / canvasWidth) ((1024 : ℚ) / canvasHeight)) = _
    rw [h4, h4']
  · intro p
    rfl

/-- C7: while Idle (cursor not active), a pointer move at `(x, y)` computes
the Preview from the current tool settings: for the brush a ring of radius
`max 1 (thickness / 2)` at `(x, y)` in the current color, for the stamp a
ghost glyph of the current sticker emoji sized `thickness * 3` at `(x, y)`
drawn at alpha 0.9. -/
theorem idle_pointer_move_preview_shape (st : DrawState) (x y : ℚ)
    (h : st.cursorActive = false) :
    ((step st (.mousemove x y)).previewCommand).map PreviewCmd.drawOps =
      some (if st.currentTool = Tool.brush
        then [RenderOp.ring x y (max 1 (st.currentToolThickness / 2))
                (if st.currentToolColor = "" then "rgba(0,0,0,0.6)"
                 else st.currentToolColor)]
        else [RenderOp.glyph st.currentStickerEmoji x y
                (st.currentToolThickness * 3) (9 / 10)]) := by
  have hact : (toolMoved st x y (some st.currentToolThickness)
      none).cursorActive = false := by rw [toolMoved_cursorActive]; exact h
  show (handleMousemove st x y).previewCommand.map PreviewCmd.drawOps = _
  unfold handleMousemove
  rcases hcs : (toolMoved st x y (some st.currentToolThickness)
      none).currentStroke with _ | i <;>
    simp only [hcs, hact, Bool.false_eq_true, if_false] <;>
    by_cases htool : st.currentTool = Tool.brush <;>
    simp [toolMoved, h, htool, PreviewCmd.drawOps]

/-- Witness for C7 at thickness 4: the brush preview is a ring of radius 2
and the stamp preview a ghost glyph of size 12, both at the pointer. -/
theorem idle_pointer_move_preview_shape_witness :
    (run initState [Event.thicknessInput 4]).cursorActive = false ∧
    ((step (run initState [Event.thicknessInput 4])
        (.mousemove 5 6)).previewCommand).map PreviewCmd.drawOps =
      some [RenderOp.ring 5 6 2 "#000000"] ∧
    (run initState [Event.thicknessInput 4, Event.stickerClick "★"]).cursorActive
        = false ∧
    ((step (run initState [Event.thicknessInput 4, Event.stickerClick "★"])
        (.mousemove 5 6)).previewCommand).map PreviewCmd.drawOps =
      some [RenderOp.glyph "★" 5 6 12 (9 / 10)] := by
  refine ⟨by decide, ?_, by decide, ?_⟩
  · rw [idle_pointer_move_preview_shape _ 5 6 (by decide)]
    norm_num [run, step, initState, rawInit, handleSelectTool,
      handleThicknessInput, toolMoved]
    decide
  · rw [idle_pointer_move_preview_shape _ 5 6 (by decide)]
    norm_num [run, step, initState, rawInit, handleSelectTool,
      handleThicknessInput, handleStickerClick, toolMoved]
    decide

/-- Incorporating a sequence of pointer positions, as the mousemove handler
does to the active Drawable. -/
def dragAll (d : Drawable) (ps : List Point) : Drawable :=
  ps.foldl (fun a p => a.drag p.x p.y) d

/-- C8: dragging a Sticker replaces its single position — after any
sequence of drag calls ending in `p` its position is exactly `p`, with the
emoji and size untouched — whereas dragging a MarkerLine appends the points
in order to its point sequence without altering the earlier points. -/
theorem drag_replaces_sticker_appends_stroke :
    (∀ (x y : ℚ) (e : String) (s : ℚ) (ps : List Point) (p : Point),
        dragAll (.sticker x y e s) (ps ++ [p]) = .sticker p.x p.y e s) ∧
    (∀ (pts : List Point) (t : ℚ) (c : String) (ps : List Point),
        dragAll (.markerLine pts t c) ps = .markerLine (pts ++ ps) t c) := by
  constructor
  · intro x y e s ps
    induction ps generalizing x y with
    | nil => intro p; rfl
    | cons q qs ih => intro p; exact ih q.x q.y p
  · intro pts t c ps
    induction ps generalizing pts with
    | nil => simp [dragAll]
    | cons q qs ih =>
      show dragAll (Drawable.markerLine (pts ++ [⟨q.x, q.y⟩]) t c) qs = _
      rw [ih]
      simp

theorem handleUndo_cursorActive (st : DrawState) :
    (handleUndo st).cursorActive = st.cursorActive := by
  unfold handleUndo; split <;> rfl

theorem handleUndo_currentStroke (st : DrawState) :
    (handleUndo st).currentStroke = st.currentStroke := by
  unfold handleUndo; split <;> rfl

theorem handleUndo_previewCommand (st : DrawState) :
    (handleUndo st).previewCommand = st.previewCommand := by
  unfold handleUndo; split <;> rfl

theorem handleRedo_cursorActive (st : DrawState) :
    (handleRedo st).cursorActive = st.cursorActive := by
  unfold handleRedo; split <;> rfl

theorem handleRedo_currentStroke (st : DrawState) :
    (handleRedo st).currentStroke = st.currentStroke := by
  unfold handleRedo; split <;> rfl

theorem handleRedo_previewCommand (st : DrawState) :
    (handleRedo st).previewCommand = st.previewCommand := by
  unfold handleRedo; split <;> rfl

theorem handleMousemove_cursorActive (st : DrawState) (x y : ℚ) :
    (handleMousemove st x y).cursorActive = st.cursorActive := by
  unfold handleMousemove
  rcases hcs : (toolMoved st x y (some st.currentToolThickness)
      none).currentStroke with _ | i <;> simp only [hcs]
  · rw [toolMoved_cursorActive]
  · split <;> simp [toolMoved_cursorActive]

theorem handleMousemove_currentStroke (st : DrawState) (x y : ℚ) :
    (handleMousemove st x y).currentStroke = st.currentStroke := by
  unfold handleMousemove
  rcases hcs : (toolMoved st x y (some st.currentToolThickness)
      none).currentStroke with _ | i <;> simp only [hcs]
  · rw [← hcs]
    exact toolMoved_currentStroke st x y _ _
  · split
    · show some i = st.currentStroke
      rw [← hcs]
      exact toolMoved_currentStroke st x y _ _
    · exact toolMoved_currentStroke st x y _ _

theorem handleMousemove_previewCommand (st : DrawState) (x y : ℚ) :
    (handleMousemove st x y).previewCommand =
      (toolMoved st x y (some st.currentToolThickness) none).previewCommand := by
  unfold handleMousemove
  rcases hcs : (toolMoved st x y (some st.currentToolThickness)
      none).currentStroke with _ | i <;> simp only [hcs] <;> split <;> rfl

/-- Firing `tool-moved` from a state that agrees with `st0` on the preview
and the active flag preserves the no-preview-while-drawing invariant. -/
theorem toolMoved_previewInv (st0 st1 : DrawState) (x y : ℚ) (th : Option ℚ)
    (col : Option String) (hpc : st1.previewCommand = st0.previewCommand)
    (hca : st1.cursorActive = st0.cursorActive) (h : PreviewInv st0) :
    PreviewInv (toolMoved st1 x y th col) := by
  intro hact
  rw [toolMoved_cursorActive] at hact
  rw [toolMoved_of_active _ _ _ _ _ hact, hpc]
  rw [hca] at hact
  exact h hact

/-- Firing `tool-moved` from a state that agrees with `st0` on the active
flag and the `currentStroke` reference preserves the cursor invariant. -/
theorem toolMoved_activeInv (st0 st1 : DrawState) (x y : ℚ) (th : Option ℚ)
    (col : Option String) (hca : st1.cursorActive = st0.cursorActive)
    (hcs : st1.currentStroke = st0.currentStroke) (h : ActiveInv st0) :
    ActiveInv (toolMoved st1 x y th col) := by
  unfold ActiveInv
  rw [toolMoved_cursorActive, toolMoved_currentStroke, hca, hcs]
  exact h

/-- Preservation of the no-preview-while-drawing invariant by every event
handler. -/
theorem previewInv_step (st : DrawState) (e : Event) (h : PreviewInv st) :
    PreviewInv (step st e) := by
  cases e with
  | mousedown x y => exact fun _ => rfl
  | mousemove x y =>
    intro hact
    have hca : st.cursorActive = true := by
      rw [← handleMousemove_cursorActive st x y]; exact hact
    show (handleMousemove st x y).previewCommand = none
    rw [handleMousemove_previewCommand, toolMoved_of_active st x y _ _ hca]
    exact h hca
  | mouseup =>
    intro hact
    simp [step, endStroke] at hact
  | mouseleave => exact fun _ => rfl
  | undoClick =>
    intro hact
    rw [show (step st .undoClick).previewCommand = st.previewCommand from
      handleUndo_previewCommand st]
    rw [show (step st .undoClick).cursorActive = st.cursorActive from
      handleUndo_cursorActive st] at hact
    exact h hact
  | redoClick =>
    intro hact
    rw [show (step st .redoClick).previewCommand = st.previewCommand from
      handleRedo_previewCommand st]
    rw [show (step st .redoClick).cursorActive = st.cursorActive from
      handleRedo_cursorActive st] at hact
    exact h hact
  | clearClick => exact fun hact => h hact
  | exportClick => exact h
  | selectBrush t => exact toolMoved_previewInv st _ _ _ _ _ rfl rfl h
  | stickerClick g => exact toolMoved_previewInv st _ _ _ _ _ rfl rfl h
  | colorInput c => exact toolMoved_previewInv st _ _ _ _ _ rfl rfl h
  | thicknessInput t => exact toolMoved_previewInv st _ _ _ _ _ rfl rfl h

theorem previewInv_run (st : DrawState) (es : List Event) (h : PreviewInv st) :
    PreviewInv (run st es) := by
  induction es generalizing st with
  | nil => exact h
  | cons e es ih => exact ih (step st e) (previewInv_step st e h)

theorem previewInv_init : PreviewInv initState := by decide

/-- C9: the Preview exists only while the pointer is not drawing: the
mousedown handler clears it; in every reachable state with the pointer
active there is no preview object (so pointer-moves and setting changes
while drawing cannot recreate it); and a render pass with the pointer
active never paints a preview. -/
theorem preview_only_while_not_drawing :
    (∀ (st : DrawState) (x y : ℚ),
        (step st (.mousedown x y)).previewCommand = none) ∧
    (∀ st : DrawState, Reachable st → st.cursorActive = true →
        st.previewCommand = none) ∧
    (∀ st : DrawState, st.cursorActive = true →
        renderOps st = (committed st).flatMap Drawable.displayOps) := by
  refine ⟨fun st x y => rfl, ?_, ?_⟩
  · rintro st ⟨es, rfl⟩
    exact previewInv_run initState es previewInv_init
  · intro st hact
    unfold renderOps
    cases hpc : st.previewCommand <;> simp only [hact, hpc] <;> simp

/-- Witness for C9 at the reachable state right after a pointer-down. -/
theorem preview_only_while_not_drawing_witness :
    (run initState [Event.mousedown 1 1]).cursorActive = true ∧
    (run initState [Event.mousedown 1 1]).previewCommand = none ∧
    renderOps (run initState [Event.mousedown 1 1]) =
      (committed (run initState [Event.mousedown 1 1])).flatMap
        Drawable.displayOps :=
  ⟨by decide,
   preview_only_while_not_drawing.2.1 _ ⟨[Event.mousedown 1 1], rfl⟩ (by decide),
   preview_only_while_not_drawing.2.2 _ (by decide)⟩

/-- C10: every event handler keeps the invariant that the cursor-active
flag agrees with the presence of a `currentStroke` reference (it holds
initially and is preserved by each event); consequently a pointer-move with
the pointer up mutates neither the committed list nor the undone stack (nor
any stroke contents: references and arena are untouched). -/
theorem cursor_flag_iff_current_stroke :
    ActiveInv initState ∧
    (∀ (st : DrawState) (e : Event), ActiveInv st → ActiveInv (step st e)) ∧
    (∀ (st : DrawState) (x y : ℚ), st.cursorActive = false →
        committed (step st (.mousemove x y)) = committed st ∧
        undone (step st (.mousemove x y)) = undone st ∧
        (step st (.mousemove x y)).strokes = st.strokes ∧
        (step st (.mousemove x y)).redoStack = st.redoStack ∧
        (step st (.mousemove x y)).heap = st.heap) := by
  refine ⟨by decide, ?_, ?_⟩
  · intro st e h
    cases e with
    | mousedown x y => rfl
    | mousemove x y =>
      show (handleMousemove st x y).cursorActive =
        (handleMousemove st x y).currentStroke.isSome
      rw [handleMousemove_cursorActive, handleMousemove_currentStroke]
      exact h
    | mouseup => rfl
    | mouseleave => rfl
    | undoClick =>
      show (handleUndo st).cursorActive = (handleUndo st).currentStroke.isSome
      rw [handleUndo_cursorActive, handleUndo_currentStroke]
      exact h
    | redoClick =>
      show (handleRedo st).cursorActive = (handleRedo st).currentStroke.isSome
      rw [handleRedo_cursorActive, handleRedo_currentStroke]
      exact h
    | clearClick => exact h
    | exportClick => exact h
    | selectBrush t => exact toolMoved_activeInv st _ _ _ _ _ rfl rfl h
    | stickerClick g => exact toolMoved_activeInv st _ _ _ _ _ rfl rfl h
    | colorInput c => exact toolMoved_activeInv st _ _ _ _ _ rfl rfl h
    | thicknessInput t => exact toolMoved_activeInv st _ _ _ _ _ rfl rfl h
  · intro st x y h
    have hact : (toolMoved st x y (some st.currentToolThickness)
        none).cursorActive = false := by rw [toolMoved_cursorActive]; exact h
    have hstep : step st (.mousemove x y) =
        toolMoved st x y (some st.currentToolThickness) none := by
      show handleMousemove st x y = _
      unfold handleMousemove
      rcases hcs : (toolMoved st x y (some st.currentToolThickness)
          none).currentStroke with _ | i <;> simp only [hcs, hact] <;> simp
    rw [hstep]
    exact ⟨committed_congr (toolMoved_strokes st x y _ _)
        (toolMoved_heap st x y _ _),
      undone_congr (toolMoved_redoStack st x y _ _) (toolMoved_heap st x y _ _),
      toolMoved_strokes st x y _ _, toolMoved_redoStack st x y _ _,
      toolMoved_heap st x y _ _⟩

/-- Witness for C10: the invariant after a pointer-down from the initial
state, and an idle pointer-move leaving committed/undone untouched. -/
theorem cursor_flag_iff_current_stroke_witness :
    ActiveInv (step initState (Event.mousedown 1 1)) ∧
    committed (step initState (Event.mousemove 7 8)) = committed initState ∧
    undone (step initState (Event.mousemove 7 8)) = undone initState :=
  ⟨cursor_flag_iff_current_stroke.2.1 initState (Event.mousedown 1 1) (by decide),
   (cursor_flag_iff_current_stroke.2.2 initState 7 8 (by decide)).1,
   (cursor_flag_iff_current_stroke.2.2 initState 7 8 (by decide)).2.1⟩

end Sketchpad
